import Mathlib

/-!
Verification of the file classification, selection and distribution engine
of `src/main.py` (`App._execute` and the constants it reads).  The Python
code is shallowly embedded: the category tables are the `FILE_TYPES` lists,
extension extraction models `os.path.splitext(...)[1].lower()`, and the two
distribution loops are embedded as structural recursions that additionally
record the sequence of attempted `shutil.move` calls.  Filesystem moves are
abstracted by an injected `mover` returning `none` on success and
`some errorText` when the move raises.
-/

/-! ## Category tables (`App.FILE_TYPES`, src/main.py lines 29-35) -/

def imagesExts : List String :=
  [".jpg", ".jpeg", ".png", ".gif", ".bmp", ".tiff", ".webp"]

def videosExts : List String :=
  [".mp4", ".mov", ".avi", ".mkv", ".wmv", ".flv"]

def audiosExts : List String :=
  [".mp3", ".wav", ".ogg", ".flac", ".aac", ".m4a"]

def documentsExts : List String :=
  [".txt", ".doc", ".docx", ".pdf", ".xls", ".xlsx", ".ppt", ".pptx", ".rtf"]

/-- The `"Other"` entry of `FILE_TYPES` is the empty list. -/
def otherExts : List String := []

/-- The five enabled-category checkboxes passed to the engine. -/
structure Categories where
  images : Bool
  videos : Bool
  audios : Bool
  documents : Bool
  other : Bool
deriving Repr, DecidableEq

/-- Lines 462-466: `selected_extensions` is the union of the extension
lists of the checked fixed categories (set membership is all that is ever
queried, so a list stands in for the Python set). -/
def selectedExtensions (c : Categories) : List String :=
  (if c.images then imagesExts else []) ++
  (if c.videos then videosExts else []) ++
  (if c.audios then audiosExts else []) ++
  (if c.documents then documentsExts else [])

/-- Line 468: `known_extensions` is the union over every `FILE_TYPES`
value, including the empty `"Other"` list. -/
def knownExtensions : List String :=
  imagesExts ++ videosExts ++ audiosExts ++ documentsExts ++ otherExts

/-! ## Extension extraction (`os.path.splitext(file)[1].lower()`) -/

/-- Model of Python `str.lower` on the ASCII extension strings the
program compares (`Char.toLower` agrees with Python on ASCII). -/
def strLower (s : String) : String := String.mk (s.toList.map Char.toLower)

/-- Index of the last `'.'` in a character list, models `str.rfind('.')`. -/
def lastDotIdx : List Char → Option Nat
  | [] => none
  | c :: cs =>
    match lastDotIdx cs with
    | some i => some (i + 1)
    | none => if c = '.' then some 0 else none

/-- Model of `os.path.splitext(name)[1]` for bare file names (entries of
`os.listdir` contain no path separator): find the last `'.'`; if at least
one character before it is not a `'.'`, the extension is the substring
from that dot to the end; otherwise (no dot, or only leading dots before
it, as in `.bashrc`) the extension is empty.  This mirrors CPython's
`genericpath._splitext` with `sepIndex = -1`. -/
def splitextChar (cs : List Char) : List Char :=
  match lastDotIdx cs with
  | none => []
  | some d => if (cs.take d).all (fun ch => ch = '.') then [] else cs.drop d

/-- String form of `splitextChar`. -/
def splitextExt (name : String) : String := String.mk (splitextChar name.toList)

/-- The extension the program classifies by:
`os.path.splitext(file)[1].lower()` (lines 473 and 478). -/
def extOf (name : String) : String := strLower (splitextExt name)

/-! ## Classification (src/main.py lines 469-479) -/

/-- Lines 469-479: build `files_to_move` from the source listing.  When
`Other` is checked a file passes when its extension is in
`selected_extensions` or is unknown to every category; otherwise it must
be in `selected_extensions`.  List `filter` preserves the listing order
exactly as the two Python `for` loops do. -/
def filesToMove (c : Categories) (sourceFilesAll : List String) : List String :=
  if c.other then
    sourceFilesAll.filter (fun file =>
      decide (extOf file ∈ selectedExtensions c) ||
        !(decide (extOf file ∈ knownExtensions)))
  else
    sourceFilesAll.filter (fun file =>
      decide (extOf file ∈ selectedExtensions c))

/-- The per-extension eligibility test implicit in lines 471-479, as a
Boolean predicate on an already-extracted extension. -/
def eligibleExt (c : Categories) (ext : String) : Bool :=
  if c.other then
    decide (ext ∈ selectedExtensions c) || !(decide (ext ∈ knownExtensions))
  else
    decide (ext ∈ selectedExtensions c)

theorem filesToMove_eq_filter (c : Categories) (fs : List String) :
    filesToMove c fs = fs.filter (fun f => eligibleExt c (extOf f)) := by
  cases hc : c.other <;> simp [filesToMove, eligibleExt, hc]

/-- Extensions claimed by some fixed category (spec §3: `Other` "matches
any extension not claimed by any of the four fixed categories"). -/
def fixedCategoryExtensions : List String :=
  imagesExts ++ videosExts ++ audiosExts ++ documentsExts

/-- The matching rule exactly as the spec states it in §4.1, as a
proposition on an extracted extension. -/
def specEligible (c : Categories) (ext : String) : Prop :=
  if c.other then
    ext ∈ selectedExtensions c ∨ ext ∉ fixedCategoryExtensions
  else
    ext ∈ selectedExtensions c

theorem eligibleExt_iff_specEligible (c : Categories) (ext : String) :
    eligibleExt c ext = true ↔ specEligible c ext := by
  have hknown : (ext ∈ knownExtensions) ↔ ext ∈ fixedCategoryExtensions := by
    simp [knownExtensions, fixedCategoryExtensions, otherExts]
  cases hc : c.other <;>
    simp [eligibleExt, specEligible, hc, hknown]

/-- Claim C1: classification is sound and complete — a file is in the
eligible list exactly when it is in the source listing and its extension
satisfies the §4.1 matching rule (enabled-union membership, with unknown
extensions falling through to `Other` exactly when `Other` is enabled). -/
theorem C1_classification_sound_complete
    (c : Categories) (names : List String) (f : String) :
    f ∈ filesToMove c names ↔ f ∈ names ∧ specEligible c (extOf f) := by
  rw [filesToMove_eq_filter, List.mem_filter, eligibleExt_iff_specEligible]

/-! ## The extension rule, declaratively (for claim C2) -/

/-- Drop the leading dots of a bare file name. -/
def dropLeadingDots : List Char → List Char
  | [] => []
  | c :: cs => if c = '.' then dropLeadingDots cs else c :: cs

/-- The suffix of a character list starting at its last `'.'`, when a dot
occurs at all. -/
def lastDotSuffix : List Char → Option (List Char)
  | [] => none
  | c :: cs =>
    match lastDotSuffix cs with
    | some t => some t
    | none => if c = '.' then some (c :: cs) else none

theorem lastDotSuffix_eq_drop (cs : List Char) :
    lastDotSuffix cs = (lastDotIdx cs).map (fun d => cs.drop d) := by
  induction cs with
  | nil => rfl
  | cons c cs ih =>
    by_cases hc : c = '.' <;> cases h : lastDotIdx cs <;>
      simp [lastDotSuffix, lastDotIdx, h, hc, h ▸ ih]

/-- Lemma: `splitextChar` computes the last-dot suffix of the name with its
leading dots stripped: the CPython index scan, stated declaratively. -/
theorem splitextChar_eq (cs : List Char) :
    splitextChar cs = (lastDotSuffix (dropLeadingDots cs)).getD [] := by
  induction cs with
  | nil => rfl
  | cons c cs ih =>
    by_cases hc : c = '.'
    · subst hc
      rw [show dropLeadingDots ('.' :: cs) = dropLeadingDots cs from rfl, ← ih]
      cases h : lastDotIdx cs with
      | none => simp [splitextChar, lastDotIdx, h]
      | some i =>
        simp only [splitextChar, lastDotIdx, h, List.take_cons,
          List.drop_succ_cons, List.all_cons]
        simp
    · have hd : dropLeadingDots (c :: cs) = c :: cs := by
        simp [dropLeadingDots, hc]
      rw [hd]
      have hs := lastDotSuffix_eq_drop (c :: cs)
      cases h : lastDotIdx cs with
      | none =>
        simp [splitextChar, lastDotIdx, h, lastDotSuffix, hc,
          lastDotSuffix_eq_drop cs]
      | some i =>
        have hidx : lastDotIdx (c :: cs) = some (i + 1) := by
          simp [lastDotIdx, h]
        rw [hs, hidx]
        simp [splitextChar, hidx, hc]

/-- Claim C2's stated extraction rule: the extension is the substring after
the last `'.'` of the name (carried, like the category tables, with its
leading dot), lowercased; a name with no `'.'` has the empty extension and
no dotfile exception is made. -/
def specExtOf (name : String) : String :=
  strLower (String.mk ((lastDotSuffix name.toList).getD []))

/-- The amended extraction rule: strip the name's leading dots first, then
take the substring from the last remaining `'.'` (empty when none
remains), lowercased — i.e. Python `splitext` semantics. -/
def extOfStripped (name : String) : String :=
  strLower (String.mk ((lastDotSuffix (dropLeadingDots name.toList)).getD []))

/-- Claim C2 (counterexample): for the dotfile `".jpg"` the claim's rule
yields the Images extension `".jpg"`, so with Images enabled and Other
disabled the claim admits the file — but the code's
`os.path.splitext` gives it the empty extension and excludes it. -/
theorem C2_counterexample :
    specExtOf ".jpg" = ".jpg" ∧ ".jpg" ∈ imagesExts ∧
    extOf ".jpg" = "" ∧
    filesToMove (Categories.mk true false false false false) [".jpg"] = [] ∧
    ([".jpg"].filter (fun f =>
        eligibleExt (Categories.mk true false false false false) (specExtOf f)))
      = [".jpg"] := by
  decide

/-- Claim C2 (amended): the extension used for classification is the
lowercased substring from the last `'.'` of the name, except that a name
whose characters before its last `'.'` are all dots (dotfiles, and names
with no dot at all) gets the empty extension; and an empty extension is
eligible exactly when `Other` is enabled. -/
theorem C2_extension_rule_amended
    (c : Categories) (name : String) (names : List String) :
    extOf name = extOfStripped name ∧
    filesToMove c names = names.filter (fun f => eligibleExt c (extOf f)) ∧
    eligibleExt c "" = c.other := by
  refine ⟨?_, filesToMove_eq_filter c names, ?_⟩
  · simp [extOf, splitextExt, extOfStripped, splitextChar_eq, strLower]
  · rcases c with ⟨i, v, a, d, o⟩
    cases i <;> cases v <;> cases a <;> cases d <;> cases o <;> decide

/-! ## Distribution (src/main.py lines 488-525)

The `shutil.move` calls are abstracted by an injected `mover`: `none`
means the move succeeded, `some e` means it raised an exception whose
text is `e`.  Besides the state the Python code keeps (the remaining
list, the per-destination `moved_this_run` counters and the failure
dialogs), the embedding records the ordered trace of attempted moves as
`(file, destination)` pairs — one entry per `shutil.move` call. -/

/-- Line 501: `f"Could not move {file_to_move}.\nError: {e}"`. -/
def fixedFailMsg (file err : String) : String :=
  "Could not move " ++ file ++ ".\nError: " ++ err

/-- Line 521: `f"Could not move file to {dest_folder}.\nError: {e}"`. -/
def evenFailMsg (dest err : String) : String :=
  "Could not move file to " ++ dest ++ ".\nError: " ++ err

/-- A mover whose every move succeeds. -/
def alwaysOk : String → String → Option String := fun _ _ => none

/-- A mover whose every move raises with text `"denied"`. -/
def failMover : String → String → Option String := fun _ _ => some "denied"

/-- Result of serving one destination (one iteration of the outer loop). -/
structure DestOutcome where
  remaining : List String
  moved : Nat
  failures : List String
  attempts : List (String × String)
deriving Repr, DecidableEq

/-- Lines 493-501: the inner `for _ in range(files_per_folder)` loop.
Each round breaks when the eligible list is empty, otherwise pops the
head, attempts the move, counts a success or records a failure dialog,
and continues either way. -/
def fixedInner (mover : String → String → Option String) (dest : String) :
    Nat → List String → DestOutcome
  | 0, files => ⟨files, 0, [], []⟩
  | _ + 1, [] => ⟨[], 0, [], []⟩
  | n + 1, f :: rest =>
    let o := fixedInner mover dest n rest
    match mover f dest with
    | none => ⟨o.remaining, o.moved + 1, o.failures, (f, dest) :: o.attempts⟩
    | some e =>
      ⟨o.remaining, o.moved, fixedFailMsg f e :: o.failures,
        (f, dest) :: o.attempts⟩

/-- Lines 514-521: the inner `for _ in range(num_to_move)` loop of the
even split.  `next(file_iterator)` raising `StopIteration` breaks; a move
failure records a failure dialog and continues. -/
def evenInner (mover : String → String → Option String) (dest : String) :
    Nat → List String → DestOutcome
  | 0, files => ⟨files, 0, [], []⟩
  | _ + 1, [] => ⟨[], 0, [], []⟩
  | k + 1, f :: rest =>
    let o := evenInner mover dest k rest
    match mover f dest with
    | none => ⟨o.remaining, o.moved + 1, o.failures, (f, dest) :: o.attempts⟩
    | some e =>
      ⟨o.remaining, o.moved, evenFailMsg dest e :: o.failures,
        (f, dest) :: o.attempts⟩

/-- Aggregate result of a distribution run: the unconsumed eligible list,
the per-destination `(folder, moved_this_run)` pairs in order, the failure
dialogs in order, and the trace of attempted moves in order. -/
structure RunResult where
  remaining : List String
  destCounts : List (String × Nat)
  failures : List String
  attempts : List (String × String)
deriving Repr, DecidableEq

/-- Lines 491-502: the FixedCount outer loop over `dest_folders`. -/
def fixedCountRun (mover : String → String → Option String) (n : Nat) :
    List String → List String → RunResult
  | [], files => ⟨files, [], [], []⟩
  | d :: ds, files =>
    let o := fixedInner mover d n files
    let r := fixedCountRun mover n ds o.remaining
    ⟨r.remaining, (d, o.moved) :: r.destCounts, o.failures ++ r.failures,
      o.attempts ++ r.attempts⟩

/-- Lines 511-522: the EvenSplit outer loop; `i` is the `enumerate`
index, `base` and `rem` are `base_files` and `remainder` of line 508. -/
def evenSplitGo (mover : String → String → Option String) (base rem : Nat) :
    List String → Nat → List String → RunResult
  | [], _, files => ⟨files, [], [], []⟩
  | d :: ds, i, files =>
    let numToMove := base + (if i < rem then 1 else 0)
    let o := evenInner mover d numToMove files
    let r := evenSplitGo mover base rem ds (i + 1) o.remaining
    ⟨r.remaining, (d, o.moved) :: r.destCounts, o.failures ++ r.failures,
      o.attempts ++ r.attempts⟩

/-- Lines 506-522: the `distribute equally` branch.  `base_files` and
`remainder` come from integer division of the eligible count by the
destination count (line 508). -/
def evenSplitRun (mover : String → String → Option String)
    (dests files : List String) : RunResult :=
  evenSplitGo mover (files.length / dests.length)
    (files.length % dests.length) dests 0 files

/-- Python `total_moved` is incremented exactly when some `moved_this_run` is, so
it equals the sum of the per-destination counters. -/
def totalMoved (r : RunResult) : Nat := (r.destCounts.map Prod.snd).sum

/-- Line 504: the "Not enough files were available." note is emitted when
`len(dest_folders) * files_per_folder > total_moved`. -/
def fixedUnsatisfied (mover : String → String → Option String) (n : Nat)
    (dests files : List String) : Bool :=
  decide (dests.length * n > totalMoved (fixedCountRun mover n dests files))

/-- Line 524: the "not distributed perfectly evenly" note is emitted when
`remainder > 0`. -/
def evenUneven (dests files : List String) : Bool :=
  decide (0 < files.length % dests.length)

/-! ## Closed forms for the inner loops -/

theorem fixedInner_eq (mover : String → String → Option String)
    (dest : String) (n : Nat) (files : List String) :
    fixedInner mover dest n files =
      ⟨files.drop n,
       ((files.take n).filter (fun f => (mover f dest).isNone)).length,
       (files.take n).filterMap
         (fun f => (mover f dest).map (fun e => fixedFailMsg f e)),
       (files.take n).map (fun f => (f, dest))⟩ := by
  induction n generalizing files with
  | zero => simp [fixedInner]
  | succ n ih =>
    cases files with
    | nil => simp [fixedInner]
    | cons f rest =>
      cases h : mover f dest <;>
        simp [fixedInner, h, ih, List.filter_cons, List.filterMap_cons]

theorem evenInner_eq (mover : String → String → Option String)
    (dest : String) (k : Nat) (files : List String) :
    evenInner mover dest k files =
      ⟨files.drop k,
       ((files.take k).filter (fun f => (mover f dest).isNone)).length,
       (files.take k).filterMap
         (fun f => (mover f dest).map (fun e => evenFailMsg dest e)),
       (files.take k).map (fun f => (f, dest))⟩ := by
  induction k generalizing files with
  | zero => simp [evenInner]
  | succ k ih =>
    cases files with
    | nil => simp [evenInner]
    | cons f rest =>
      cases h : mover f dest <;>
        simp [evenInner, h, ih, List.filter_cons, List.filterMap_cons]

theorem length_filterMap_map_option {α β γ : Type} (h : α → Option β)
    (g : α → β → γ) (l : List α) :
    (l.filterMap (fun a => (h a).map (g a))).length
      = (l.filter (fun a => (h a).isSome)).length := by
  induction l with
  | nil => rfl
  | cons a l ih => cases hh : h a <;> simp [hh, ih, List.filter_cons]

theorem length_filter_isNone_add {α β : Type} (h : α → Option β) (l : List α) :
    (l.filter (fun a => (h a).isNone)).length
      + (l.filter (fun a => (h a).isSome)).length = l.length := by
  induction l with
  | nil => rfl
  | cons a l ih =>
    cases hh : h a <;> simp [hh, List.filter_cons] <;> omega

theorem filterMap_const_none {α β : Type} (l : List α) :
    l.filterMap (fun _ => (none : Option β)) = [] := by
  induction l <;> simp [*]

/-! ## FixedCount run lemmas -/

theorem fixedCountRun_remaining (mover : String → String → Option String)
    (n : Nat) (dests files : List String) :
    (fixedCountRun mover n dests files).remaining
      = files.drop (n * dests.length) := by
  induction dests generalizing files with
  | nil => simp [fixedCountRun]
  | cons d ds ih =>
    simp [fixedCountRun, fixedInner_eq, ih, List.drop_drop, Nat.mul_succ,
      Nat.add_comm]

theorem fixedCountRun_attempts_fst (mover : String → String → Option String)
    (n : Nat) (dests files : List String) :
    (fixedCountRun mover n dests files).attempts.map Prod.fst
      = files.take (n * dests.length) := by
  induction dests generalizing files with
  | nil => simp [fixedCountRun]
  | cons d ds ih =>
    simp only [fixedCountRun, fixedInner_eq, List.map_append, ih,
      List.map_map, List.length_cons]
    rw [Nat.mul_succ, Nat.add_comm, List.take_add]
    simp [Function.comp_def]

theorem fixedCountRun_attempts_indep
    (mover mover' : String → String → Option String)
    (n : Nat) (dests files : List String) :
    (fixedCountRun mover n dests files).attempts
      = (fixedCountRun mover' n dests files).attempts := by
  induction dests generalizing files with
  | nil => rfl
  | cons d ds ih => simp [fixedCountRun, fixedInner_eq, ih]

theorem fixedCountRun_failures_eq (mover : String → String → Option String)
    (n : Nat) (dests files : List String) :
    (fixedCountRun mover n dests files).failures
      = (fixedCountRun mover n dests files).attempts.filterMap
          (fun fd => (mover fd.1 fd.2).map (fun e => fixedFailMsg fd.1 e)) := by
  induction dests generalizing files with
  | nil => rfl
  | cons d ds ih =>
    simp only [fixedCountRun, fixedInner_eq, List.filterMap_append, ih]
    congr 1
    rw [List.filterMap_map]
    simp [Function.comp_def]

theorem fixedCountRun_moved_add_failures
    (mover : String → String → Option String)
    (n : Nat) (dests files : List String) :
    totalMoved (fixedCountRun mover n dests files)
      + (fixedCountRun mover n dests files).failures.length
      = (fixedCountRun mover n dests files).attempts.length := by
  induction dests generalizing files with
  | nil => simp [fixedCountRun, totalMoved]
  | cons d ds ih =>
    have ih' := ih (files.drop n)
    have h1 := length_filterMap_map_option (fun f => mover f d)
      (fun f e => fixedFailMsg f e) (files.take n)
    have h2 := length_filter_isNone_add (fun f => mover f d) (files.take n)
    simp only [fixedCountRun, fixedInner_eq, totalMoved, List.map_cons,
      List.sum_cons, List.length_append, List.length_map] at *
    omega

/-! ## FixedCount under an all-success mover (claim C3) -/

theorem fixedInner_alwaysOk (dest : String) (n : Nat) (files : List String) :
    fixedInner alwaysOk dest n files =
      ⟨files.drop n, min n files.length, [],
        (files.take n).map (fun f => (f, dest))⟩ := by
  rw [fixedInner_eq]
  simp [alwaysOk, List.filter_true, List.length_take]

theorem fixedCountRun_failures_alwaysOk (n : Nat) (dests files : List String) :
    (fixedCountRun alwaysOk n dests files).failures = [] := by
  rw [fixedCountRun_failures_eq]
  simp [alwaysOk, filterMap_const_none]

theorem fixedCountRun_total_alwaysOk (n : Nat) (dests files : List String) :
    totalMoved (fixedCountRun alwaysOk n dests files)
      = min (n * dests.length) files.length := by
  have hacc := fixedCountRun_moved_add_failures alwaysOk n dests files
  have hfail := fixedCountRun_failures_alwaysOk n dests files
  have hatt : (fixedCountRun alwaysOk n dests files).attempts.length
      = min (n * dests.length) files.length := by
    have h := congrArg List.length (fixedCountRun_attempts_fst alwaysOk n dests files)
    simpa [List.length_map, List.length_take] using h
  rw [hfail] at hacc
  simp only [List.length_nil, Nat.add_zero] at hacc
  omega

theorem fixedCountRun_counts_getD (n : Nat) (dests files : List String)
    (i : Nat) (hi : i < dests.length) :
    ((fixedCountRun alwaysOk n dests files).destCounts.map Prod.snd).getD i 0
      = min n (files.length - n * i) := by
  induction dests generalizing files i with
  | nil => simp at hi
  | cons d ds ih =>
    cases i with
    | zero => simp [fixedCountRun, fixedInner_alwaysOk]
    | succ i =>
      have hi' : i < ds.length := by simpa using hi
      simp only [fixedCountRun, fixedInner_alwaysOk, List.map_cons,
        List.getD_cons_succ]
      rw [ih (files.drop n) i hi', List.length_drop, Nat.mul_succ]
      generalize n * i = B
      omega

/-- Claim C3: under FixedCount(n), exactly `min (n * D) E` files are moved
in total (all moves succeeding), and destination `i` in supplied order
receives exactly `min n r` files where `r = E - n * i` is the number of
files remaining after the previous destinations were served; in
particular destinations reached after the list empties receive zero. -/
theorem C3_fixed_count_allocation (n : Nat) (dests files : List String)
    (hn : 0 < n) :
    totalMoved (fixedCountRun alwaysOk n dests files)
      = min (n * dests.length) files.length ∧
    ∀ i, i < dests.length →
      ((fixedCountRun alwaysOk n dests files).destCounts.map Prod.snd).getD i 0
        = min n (files.length - n * i) := by
  exact ⟨fixedCountRun_total_alwaysOk n dests files,
    fun i hi => fixedCountRun_counts_getD n dests files i hi⟩

/-- Witness for C3 at `n = 2`, two destinations and three files: three
files are moved in total and the second destination receives one. -/
theorem C3_fixed_count_allocation_witness :
    0 < 2 ∧ (1 : Nat) < (["d1", "d2"] : List String).length ∧
    totalMoved (fixedCountRun alwaysOk 2 ["d1", "d2"] ["a", "b", "c"])
      = min (2 * (["d1", "d2"] : List String).length)
          (["a", "b", "c"] : List String).length ∧
    ((fixedCountRun alwaysOk 2 ["d1", "d2"] ["a", "b", "c"]).destCounts.map
        Prod.snd).getD 1 0
      = min 2 ((["a", "b", "c"] : List String).length - 2 * 1) :=
  ⟨by decide, by decide,
    (C3_fixed_count_allocation 2 ["d1", "d2"] ["a", "b", "c"] (by decide)).1,
    (C3_fixed_count_allocation 2 ["d1", "d2"] ["a", "b", "c"] (by decide)).2
      1 (by decide)⟩

/-! ## EvenSplit run lemmas (claim C4) -/

/-- The allocation sizes `base + (1 if i < rem else 0)` of line 512, for
the destinations from `enumerate` index `i` on. -/
def allocList (base rem : Nat) : List String → Nat → List Nat
  | [], _ => []
  | _ :: ds, i => (base + if i < rem then 1 else 0) :: allocList base rem ds (i + 1)

/-- Total allocation from `enumerate` index `i` on. -/
def allocSum (base rem : Nat) : List String → Nat → Nat
  | [], _ => 0
  | _ :: ds, i => (base + if i < rem then 1 else 0) + allocSum base rem ds (i + 1)

theorem allocList_sum (base rem : Nat) (ds : List String) (i : Nat) :
    (allocList base rem ds i).sum = allocSum base rem ds i := by
  induction ds generalizing i with
  | nil => rfl
  | cons d ds ih => simp [allocList, allocSum, ih]

theorem allocSum_closed (base rem : Nat) (ds : List String) (i : Nat) :
    allocSum base rem ds i = ds.length * base + (min rem (i + ds.length) - i) := by
  induction ds generalizing i with
  | nil => simp [allocSum]
  | cons d ds ih =>
    simp only [allocSum, ih (i + 1), List.length_cons, Nat.succ_mul]
    generalize ds.length * base = B
    by_cases h : i < rem <;> simp [h] <;> omega

theorem allocList_getD (base rem : Nat) (ds : List String) (i j : Nat)
    (hj : j < ds.length) :
    (allocList base rem ds i).getD j 0
      = base + if i + j < rem then 1 else 0 := by
  induction ds generalizing i j with
  | nil => simp at hj
  | cons d ds ih =>
    cases j with
    | zero => simp [allocList]
    | succ j =>
      have hj' : j < ds.length := by simpa using hj
      have harith : i + 1 + j = i + (j + 1) := by omega
      simp only [allocList, List.getD_cons_succ]
      rw [ih (i + 1) j hj', harith]

theorem evenInner_alwaysOk (dest : String) (k : Nat) (files : List String) :
    evenInner alwaysOk dest k files =
      ⟨files.drop k, min k files.length, [],
        (files.take k).map (fun f => (f, dest))⟩ := by
  rw [evenInner_eq]
  simp [alwaysOk, List.filter_true, List.length_take]

theorem evenSplitGo_remaining (mover : String → String → Option String)
    (base rem : Nat) (ds : List String) (i : Nat) (files : List String) :
    (evenSplitGo mover base rem ds i files).remaining
      = files.drop (allocSum base rem ds i) := by
  induction ds generalizing i files with
  | nil => simp [evenSplitGo, allocSum]
  | cons d ds ih =>
    simp [evenSplitGo, evenInner_eq, ih, allocSum, List.drop_drop,
      Nat.add_comm]

theorem evenSplitGo_attempts_fst (mover : String → String → Option String)
    (base rem : Nat) (ds : List String) (i : Nat) (files : List String) :
    (evenSplitGo mover base rem ds i files).attempts.map Prod.fst
      = files.take (allocSum base rem ds i) := by
  induction ds generalizing i files with
  | nil => simp [evenSplitGo, allocSum]
  | cons d ds ih =>
    simp only [allocSum, evenSplitGo, evenInner_eq, List.map_append, ih,
      List.map_map]
    generalize base + (if i < rem then 1 else 0) = k
    rw [List.take_add]
    simp [Function.comp_def]

theorem evenSplitGo_attempts_indep
    (mover mover' : String → String → Option String)
    (base rem : Nat) (ds : List String) (i : Nat) (files : List String) :
    (evenSplitGo mover base rem ds i files).attempts
      = (evenSplitGo mover' base rem ds i files).attempts := by
  induction ds generalizing i files with
  | nil => rfl
  | cons d ds ih => simp [evenSplitGo, evenInner_eq, ih]

theorem evenSplitGo_failures_eq (mover : String → String → Option String)
    (base rem : Nat) (ds : List String) (i : Nat) (files : List String) :
    (evenSplitGo mover base rem ds i files).failures
      = (evenSplitGo mover base rem ds i files).attempts.filterMap
          (fun fd => (mover fd.1 fd.2).map (fun e => evenFailMsg fd.2 e)) := by
  induction ds generalizing i files with
  | nil => rfl
  | cons d ds ih =>
    simp only [evenSplitGo, evenInner_eq, List.filterMap_append, ih]
    congr 1
    rw [List.filterMap_map]
    simp [Function.comp_def]

theorem evenSplitGo_moved_add_failures
    (mover : String → String → Option String)
    (base rem : Nat) (ds : List String) (i : Nat) (files : List String) :
    totalMoved (evenSplitGo mover base rem ds i files)
      + (evenSplitGo mover base rem ds i files).failures.length
      = (evenSplitGo mover base rem ds i files).attempts.length := by
  induction ds generalizing i files with
  | nil => simp [evenSplitGo, totalMoved]
  | cons d ds ih =>
    have ih' := ih (i + 1)
      (files.drop (base + if i < rem then 1 else 0))
    have h1 := length_filterMap_map_option (fun f => mover f d)
      (fun _ e => evenFailMsg d e)
      (files.take (base + if i < rem then 1 else 0))
    have h2 := length_filter_isNone_add (fun f => mover f d)
      (files.take (base + if i < rem then 1 else 0))
    simp only [evenSplitGo, evenInner_eq, totalMoved, List.map_cons,
      List.sum_cons, List.length_append, List.length_map] at *
    omega

theorem evenSplitGo_counts (base rem : Nat) (ds : List String) (i : Nat)
    (files : List String) (h : allocSum base rem ds i ≤ files.length) :
    (evenSplitGo alwaysOk base rem ds i files).destCounts.map Prod.snd
      = allocList base rem ds i := by
  induction ds generalizing i files with
  | nil => rfl
  | cons d ds ih =>
    have hk : base + (if i < rem then 1 else 0) ≤ files.length := by
      simp only [allocSum] at h
      omega
    have h' : allocSum base rem ds (i + 1)
        ≤ (files.drop (base + if i < rem then 1 else 0)).length := by
      simp only [allocSum] at h
      rw [List.length_drop]
      omega
    simp only [evenSplitGo, evenInner_alwaysOk, List.map_cons, allocList,
      ih (i + 1) _ h', List.cons.injEq]
    exact ⟨Nat.min_eq_left hk, trivial⟩

theorem allocSum_top (dests files : List String) (hD : dests ≠ []) :
    allocSum (files.length / dests.length) (files.length % dests.length)
      dests 0 = files.length := by
  have hpos : 0 < dests.length := List.length_pos.mpr hD
  have hrem : files.length % dests.length < dests.length :=
    Nat.mod_lt _ hpos
  have hmin : min (files.length % dests.length) (0 + dests.length)
      = files.length % dests.length := by omega
  rw [allocSum_closed, hmin, Nat.sub_zero]
  exact Nat.div_add_mod files.length dests.length

/-- Claim C4: under EvenSplit with a non-empty destination list,
destination `i` (0-based, supplied order) is allocated `E / D + 1` files
when `i < E % D` and `E / D` otherwise; the allocations sum to `E`,
differ pairwise by at most one, and the first `E % D` destinations get
the larger share (all moves succeeding). -/
theorem C4_even_split_allocation (dests files : List String)
    (hD : dests ≠ []) :
    (∀ i, i < dests.length →
      ((evenSplitRun alwaysOk dests files).destCounts.map Prod.snd).getD i 0
        = files.length / dests.length
          + if i < files.length % dests.length then 1 else 0) ∧
    ((evenSplitRun alwaysOk dests files).destCounts.map Prod.snd).sum
      = files.length ∧
    (∀ i j, i < dests.length → j < dests.length →
      ((evenSplitRun alwaysOk dests files).destCounts.map Prod.snd).getD i 0
        ≤ ((evenSplitRun alwaysOk dests files).destCounts.map
            Prod.snd).getD j 0 + 1) ∧
    (∀ i, i < files.length % dests.length →
      ((evenSplitRun alwaysOk dests files).destCounts.map Prod.snd).getD i 0
        = files.length / dests.length + 1) := by
  have htop := allocSum_top dests files hD
  have hcounts := evenSplitGo_counts (files.length / dests.length)
    (files.length % dests.length) dests 0 files (le_of_eq htop)
  have hpos : 0 < dests.length := List.length_pos.mpr hD
  have hrem : files.length % dests.length < dests.length :=
    Nat.mod_lt _ hpos
  have hgetD : ∀ i, i < dests.length →
      ((evenSplitRun alwaysOk dests files).destCounts.map Prod.snd).getD i 0
        = files.length / dests.length
          + if i < files.length % dests.length then 1 else 0 := by
    intro i hi
    rw [evenSplitRun, hcounts, allocList_getD _ _ _ _ _ hi]
    simp
  refine ⟨hgetD, ?_, ?_, ?_⟩
  · rw [evenSplitRun, hcounts, allocList_sum, htop]
  · intro i j hi hj
    rw [hgetD i hi, hgetD j hj]
    split_ifs <;> omega
  · intro i hi
    rw [hgetD i (lt_trans hi hrem), if_pos hi]

/-- Witness for C4 with two destinations and three files: the first
destination gets two files, allocations sum to three, and the first and
second counts differ by at most one. -/
theorem C4_even_split_allocation_witness :
    (["d1", "d2"] : List String) ≠ [] ∧ (0 : Nat) < 2 ∧ (1 : Nat) < 2 ∧
    ((evenSplitRun alwaysOk ["d1", "d2"] ["a", "b", "c"]).destCounts.map
        Prod.snd).getD 0 0 = 2 ∧
    ((evenSplitRun alwaysOk ["d1", "d2"] ["a", "b", "c"]).destCounts.map
        Prod.snd).sum = 3 ∧
    ((evenSplitRun alwaysOk ["d1", "d2"] ["a", "b", "c"]).destCounts.map
        Prod.snd).getD 0 0
      ≤ ((evenSplitRun alwaysOk ["d1", "d2"] ["a", "b", "c"]).destCounts.map
          Prod.snd).getD 1 0 + 1 :=
  ⟨by decide, by decide, by decide,
    (C4_even_split_allocation ["d1", "d2"] ["a", "b", "c"] (by decide)).1
      0 (by decide),
    (C4_even_split_allocation ["d1", "d2"] ["a", "b", "c"] (by decide)).2.1,
    (C4_even_split_allocation ["d1", "d2"] ["a", "b", "c"]
      (by decide)).2.2.1 0 1 (by decide) (by decide)⟩

/-! ## Flags and failure accounting (claims C5, C6, C8, C9, C10) -/

/-- Claim C5: the FixedCount "could not fully satisfy" note appears iff
`num_destinations * n` strictly exceeds `total_moved`, and `total_moved`
counts only successful moves: moved plus failed equals attempted. -/
theorem C5_unsatisfied_flag (mover : String → String → Option String)
    (n : Nat) (dests files : List String) :
    (fixedUnsatisfied mover n dests files = true ↔
      dests.length * n > totalMoved (fixedCountRun mover n dests files)) ∧
    totalMoved (fixedCountRun mover n dests files)
      + (fixedCountRun mover n dests files).failures.length
      = (fixedCountRun mover n dests files).attempts.length :=
  ⟨by simp [fixedUnsatisfied],
    fixedCountRun_moved_add_failures mover n dests files⟩

/-- Test whether `pat` occurs at the start of `l`. -/
def beginsWith : List Char → List Char → Bool
  | _, [] => true
  | [], _ :: _ => false
  | c :: cs, p :: ps => c == p && beginsWith cs ps

/-- Test whether `pat` occurs contiguously somewhere in `l`. -/
def containsSeq (pat : List Char) : List Char → Bool
  | [] => beginsWith [] pat
  | c :: cs => beginsWith (c :: cs) pat || containsSeq pat cs

/-- Test whether `needle` occurs as a contiguous substring of `hay`. -/
def mentions (needle hay : String) : Bool :=
  containsSeq needle.toList hay.toList

/-- Claim C6 (counterexample): with destination `"destX"`, file `"a.jpg"`
and a mover raising `"denied"`, the FixedCount failure message names the
file and the reason but not the destination, and the EvenSplit failure
message names the destination and the reason but not the file — refuting
"naming the filename, the destination, and the underlying reason". -/
theorem C6_counterexample :
    (fixedCountRun failMover 1 ["destX"] ["a.jpg"]).failures
      = ["Could not move a.jpg.\nError: denied"] ∧
    mentions "a.jpg" "Could not move a.jpg.\nError: denied" = true ∧
    mentions "denied" "Could not move a.jpg.\nError: denied" = true ∧
    mentions "destX" "Could not move a.jpg.\nError: denied" = false ∧
    (evenSplitRun failMover ["destX"] ["a.jpg"]).failures
      = ["Could not move file to destX.\nError: denied"] ∧
    mentions "a.jpg" "Could not move file to destX.\nError: denied" = false := by
  decide

/-- Claim C6 (amended): every failed move, and only a failed move,
appends exactly one failure message, in order — under FixedCount it names
the filename and the raised error (not the destination), under EvenSplit
the destination and the error (not the filename) — and the sequence of
attempted moves is independent of which moves fail, so a single failure
never aborts the batch. -/
theorem C6_failure_messages_amended (mover : String → String → Option String)
    (n : Nat) (dests files : List String) :
    (fixedCountRun mover n dests files).failures
      = (fixedCountRun mover n dests files).attempts.filterMap
          (fun fd => (mover fd.1 fd.2).map (fun e => fixedFailMsg fd.1 e)) ∧
    (evenSplitRun mover dests files).failures
      = (evenSplitRun mover dests files).attempts.filterMap
          (fun fd => (mover fd.1 fd.2).map (fun e => evenFailMsg fd.2 e)) ∧
    (fixedCountRun mover n dests files).attempts
      = (fixedCountRun alwaysOk n dests files).attempts ∧
    (evenSplitRun mover dests files).attempts
      = (evenSplitRun alwaysOk dests files).attempts :=
  ⟨fixedCountRun_failures_eq mover n dests files,
    evenSplitGo_failures_eq mover _ _ dests 0 files,
    fixedCountRun_attempts_indep mover alwaysOk n dests files,
    evenSplitGo_attempts_indep mover alwaysOk _ _ dests 0 files⟩

/-- Claim C8 (counterexample): under FixedCount(1) with one destination
and two eligible files, the second eligible file is never consumed and is
assigned to no destination, refuting "each eligible file is consumed from
the list exactly once and assigned to exactly one destination". -/
theorem C8_counterexample :
    "b" ∈ (["a", "b"] : List String) ∧
    (fixedCountRun alwaysOk 1 ["d1"] ["a", "b"]).remaining = ["b"] ∧
    (fixedCountRun alwaysOk 1 ["d1"] ["a", "b"]).attempts.all
      (fun p => p.1 != "b") = true := by
  decide

/-- Claim C8 (amended): the consumed files are exactly an initial segment
of the eligible list, in order, each paired with exactly one destination
— so no file is consumed twice, and a move failure never causes later
files to be skipped or duplicated; under EvenSplit (non-empty
destinations) the whole eligible list is consumed. -/
theorem C8_consumption_amended (mover : String → String → Option String)
    (n : Nat) (dests files : List String) (hD : dests ≠ []) :
    (fixedCountRun mover n dests files).attempts.map Prod.fst
        ++ (fixedCountRun mover n dests files).remaining = files ∧
    (evenSplitRun mover dests files).attempts.map Prod.fst
        ++ (evenSplitRun mover dests files).remaining = files ∧
    (evenSplitRun mover dests files).remaining = [] := by
  refine ⟨?_, ?_, ?_⟩
  · rw [fixedCountRun_attempts_fst, fixedCountRun_remaining]
    exact List.take_append_drop _ files
  · simp only [evenSplitRun, evenSplitGo_attempts_fst, evenSplitGo_remaining]
    exact List.take_append_drop _ files
  · simp only [evenSplitRun, evenSplitGo_remaining,
      allocSum_top dests files hD]
    exact List.drop_length files

/-- Witness for C8 (amended) with a failing mover: both policies consume
a prefix and EvenSplit consumes everything. -/
theorem C8_consumption_amended_witness :
    (["d1"] : List String) ≠ [] ∧
    (fixedCountRun failMover 1 ["d1"] ["a", "b"]).attempts.map Prod.fst
        ++ (fixedCountRun failMover 1 ["d1"] ["a", "b"]).remaining
      = ["a", "b"] ∧
    (evenSplitRun failMover ["d1"] ["a", "b"]).attempts.map Prod.fst
        ++ (evenSplitRun failMover ["d1"] ["a", "b"]).remaining
      = ["a", "b"] ∧
    (evenSplitRun failMover ["d1"] ["a", "b"]).remaining = [] :=
  ⟨by decide,
    (C8_consumption_amended failMover 1 ["d1"] ["a", "b"] (by decide)).1,
    (C8_consumption_amended failMover 1 ["d1"] ["a", "b"] (by decide)).2.1,
    (C8_consumption_amended failMover 1 ["d1"] ["a", "b"] (by decide)).2.2⟩

/-- Claim C9: the EvenSplit "uneven" note is emitted iff
`total_eligible mod num_destinations` is nonzero (it is computed after
the allocation loop from those two counts alone, so it never affects the
allocation). -/
theorem C9_uneven_flag (dests files : List String) :
    evenUneven dests files = true ↔ files.length % dests.length ≠ 0 := by
  simp [evenUneven, Nat.pos_iff_ne_zero]

/-- Claim C10: when at least `n * D` files are eligible but some move
fails, the FixedCount "could not fully satisfy" note still appears,
because line 504 compares `D * n` with the count of successful moves
rather than with the count of attempted moves. -/
theorem C10_unsatisfied_on_failure (mover : String → String → Option String)
    (n : Nat) (dests files : List String)
    (hE : n * dests.length ≤ files.length)
    (hf : (fixedCountRun mover n dests files).failures ≠ []) :
    fixedUnsatisfied mover n dests files = true := by
  have hacc := fixedCountRun_moved_add_failures mover n dests files
  have hatt : (fixedCountRun mover n dests files).attempts.length
      = min (n * dests.length) files.length := by
    have h := congrArg List.length
      (fixedCountRun_attempts_fst mover n dests files)
    simpa [List.length_map, List.length_take] using h
  have hfl : 0 < (fixedCountRun mover n dests files).failures.length :=
    List.length_pos.mpr hf
  simp only [fixedUnsatisfied, gt_iff_lt, decide_eq_true_eq]
  rw [Nat.mul_comm]
  omega

/-- Witness for C10: one destination, one eligible file, `n = 1`, every
move failing — the note is emitted although a file was available for
every slot. -/
theorem C10_unsatisfied_on_failure_witness :
    1 * (["d1"] : List String).length ≤ (["a"] : List String).length ∧
    (fixedCountRun failMover 1 ["d1"] ["a"]).failures ≠ [] ∧
    fixedUnsatisfied failMover 1 ["d1"] ["a"] = true :=
  ⟨by decide, by decide,
    C10_unsatisfied_on_failure failMover 1 ["d1"] ["a"] (by decide)
      (by decide)⟩

/-! ## The full `_execute` entry point (claim C7) -/

/-- Outcome of one `_execute` invocation.  The first five constructors
are the early returns of lines 445-460 and 481-483 (each shows one
dialog and moves nothing); `completed` carries the distribution result
together with the optional notes of lines 504-505 and 524-525. -/
inductive ExecResult where
  | noSource
  | noDestinations
  | sourceNotFound
  | emptySource
  | noMatchingFiles
  | completed (run : RunResult) (unsatisfiedNote unevenNote : Bool)
deriving Repr, DecidableEq

/-- The moves attempted during an `_execute` invocation. -/
def ExecResult.attemptedMoves : ExecResult → List (String × String)
  | .completed run _ _ => run.attempts
  | _ => []

/-- Lines 439-528 of `App._execute`, minus the `random.shuffle` of line
486 (external nondeterminism; no verified claim depends on the eligible
list's order being shuffled or not).  `listing` is the outcome of
`os.listdir(source_folder)`: `none` models the `FileNotFoundError`
caught on line 454. -/
def execute (mover : String → String → Option String)
    (sourceFolder : String) (destFolders : List String)
    (filesPerFolder : Nat) (c : Categories)
    (listing : Option (List String)) : ExecResult :=
  if sourceFolder = "" then .noSource
  else if destFolders = [] then .noDestinations
  else
    match listing with
    | none => .sourceNotFound
    | some sourceFilesAll =>
      if sourceFilesAll = [] then .emptySource
      else
        let toMove := filesToMove c sourceFilesAll
        if toMove = [] then .noMatchingFiles
        else if 0 < filesPerFolder then
          .completed (fixedCountRun mover filesPerFolder destFolders toMove)
            (fixedUnsatisfied mover filesPerFolder destFolders toMove) false
        else
          .completed (evenSplitRun mover destFolders toMove) false
            (evenUneven destFolders toMove)

/-- Claim C7: when the source directory cannot be listed
(`os.listdir` raises `FileNotFoundError`), the run fails with the
source-unreadable outcome immediately and no move is attempted. -/
theorem C7_source_unreadable (mover : String → String → Option String)
    (src : String) (dests : List String) (n : Nat) (c : Categories)
    (hs : src ≠ "") (hd : dests ≠ []) :
    execute mover src dests n c none = ExecResult.sourceNotFound ∧
    (execute mover src dests n c none).attemptedMoves = [] := by
  simp [execute, hs, hd, ExecResult.attemptedMoves]

/-- Witness for C7 at a concrete configuration. -/
theorem C7_source_unreadable_witness :
    ("s" : String) ≠ "" ∧ (["d"] : List String) ≠ [] ∧
    execute alwaysOk "s" ["d"] 1 (Categories.mk true true true true true)
        none = ExecResult.sourceNotFound ∧
    (execute alwaysOk "s" ["d"] 1 (Categories.mk true true true true true)
        none).attemptedMoves = [] :=
  ⟨by decide, by decide,
    (C7_source_unreadable alwaysOk "s" ["d"] 1
      (Categories.mk true true true true true) (by decide) (by decide)).1,
    (C7_source_unreadable alwaysOk "s" ["d"] 1
      (Categories.mk true true true true true) (by decide) (by decide)).2⟩
